import Mathlib

/-!
Verification of the RAG pipeline of the telegram bot repository.

Strings are modelled as `List Char` (Python strings are sequences of code
points).  Python integers are unbounded, so indices are `Int`; Python slice
and `str.rfind` index normalisation (negative indices count from the end,
out-of-range indices clamp) is modelled explicitly by `pyIdx`.  Python `//`
is floor division, modelled by `Int.fdiv`.

The chunking loop of `chunk_text` (src/rag/embedder.py) is a `while` loop
that need not terminate, so it is embedded with a fuel parameter: `none`
means the fuel ran out before the loop exited.
-/

/-- Python's `str.isspace` characters that matter here (ASCII whitespace,
as used by `str.strip()` with no argument). -/
def isPySpace (c : Char) : Bool :=
  c = ' ' ∨ c = '\t' ∨ c = '\n' ∨ c = '\x0d' ∨ c = '\x0b' ∨ c = '\x0c'

/-- Python `str.strip()`: drop leading and trailing whitespace. -/
def pyStrip (s : List Char) : List Char :=
  ((s.dropWhile isPySpace).reverse.dropWhile isPySpace).reverse

/-- Normalise a Python slice index against a sequence of length `n`:
negative indices count from the end, everything clamps into `[0, n]`. -/
def pyIdx (n : Nat) (i : Int) : Nat :=
  if i < 0 then (i + n).toNat else min i.toNat n

/-- Python slice `s[a:b]` (step 1). -/
def pySlice (s : List Char) (a b : Int) : List Char :=
  (s.take (pyIdx s.length b)).drop (pyIdx s.length a)

/-- Python `s.rfind(sub, a, b)`: the greatest position `p` such that `sub`
occurs at `p` entirely inside the normalised window, or `-1`. -/
def pyRfind (s sub : List Char) (a b : Int) : Int :=
  ((List.range (pyIdx s.length b + 1)).filter (fun p =>
      decide (pyIdx s.length a ≤ p) &&
      decide (p + sub.length ≤ pyIdx s.length b) &&
      decide ((s.drop p).take sub.length = sub))).foldl
    (fun (acc : Int) (p : Nat) => max acc (p : Int)) (-1)

/-- The paragraph-break pattern searched for by `chunk_text`. -/
def paraBreak : List Char := ['\n', '\n']

/-- The sentence-break pattern searched for by `chunk_text`. -/
def sentBreak : List Char := ['.', ' ']

/-- The boundary-aware window end of one iteration of `chunk_text`
(src/rag/embedder.py lines 71-83): start from `start + chunk_size`; if that
is inside the text, move back to the last paragraph break after the window
midpoint, else to just after the last sentence break after the midpoint. -/
def computeEnd (text : List Char) (cs start : Int) : Int :=
  if start + cs < (text.length : Int) then
    if pyRfind text paraBreak start (start + cs) > start + Int.fdiv cs 2 then
      pyRfind text paraBreak start (start + cs)
    else if pyRfind text sentBreak start (start + cs) > start + Int.fdiv cs 2 then
      pyRfind text sentBreak start (start + cs) + 1
    else start + cs
  else start + cs

/-- The `while start < len(text)` loop of `chunk_text`
(src/rag/embedder.py lines 70-89), with fuel.  Each iteration cuts
`text[start:end].strip()`, keeps it if non-empty, and advances
`start` to `end - overlap` (or to `end` when `end` reached the text end). -/
def chunkLoop (text : List Char) (cs ov : Int) :
    Nat → Int → List (List Char) → Option (List (List Char))
  | 0, _, _ => none
  | fuel + 1, start, acc =>
    if start < (text.length : Int) then
      chunkLoop text cs ov fuel
        (if computeEnd text cs start < (text.length : Int) then
          computeEnd text cs start - ov
        else computeEnd text cs start)
        (if (pyStrip (pySlice text start (computeEnd text cs start))).isEmpty then acc
         else acc ++ [pyStrip (pySlice text start (computeEnd text cs start))])
    else some acc

/-- `chunk_text(text, chunk_size, overlap)` from src/rag/embedder.py.
If the raw text length is at most `chunk_size` it returns the stripped text
(or nothing if stripping leaves it empty); otherwise it runs the window
loop, which is fuelled because the source loop can diverge. -/
def chunkText (fuel : Nat) (text : List Char) (cs ov : Int) :
    Option (List (List Char)) :=
  if (text.length : Int) ≤ cs then
    some (if (pyStrip text).isEmpty then [] else [pyStrip text])
  else chunkLoop text cs ov fuel 0 []

/-- `chunk_text` at the default arguments `chunk_size=500, overlap=50`, as
called by `load_documents`.  Fuel `text.length + 1` is enough there
(`chunkText_default_isSome` below), so the `getD` default is never taken. -/
def chunkTextD (text : List Char) : List (List Char) :=
  (chunkText (text.length + 1) text 500 50).getD []

-- sanity checks of the embedding on concrete Python runs
example : chunkText 5 "abcdefghijklmno".toList 10 3 =
    some ["abcdefghij".toList, "hijklmno".toList] := by decide
example : chunkText 9 "".toList 500 50 = some [] := by decide
example : chunkText 9 "  hi  ".toList 500 50 = some ["hi".toList] := by decide
example : pyRfind "ab\n\ncd".toList paraBreak 0 (-1) = 2 := by decide
example : pySlice "abcdef".toList (-4) 5 = "cde".toList := by decide
example : pyStrip "  a b\n".toList = "a b".toList := by decide

/-! ### Basic facts about the Python string primitives -/

lemma dropWhile_cases (p : Char → Bool) (l : List Char) :
    l.dropWhile p = [] ∨ ∃ a t, l.dropWhile p = a :: t ∧ p a = false := by
  induction l with
  | nil => exact Or.inl rfl
  | cons a l ih =>
    by_cases h : p a = true
    · simpa [List.dropWhile_cons, h] using ih
    · exact Or.inr ⟨a, l, by simp [List.dropWhile_cons, h],
        by simpa using h⟩

lemma pyStrip_eq_parts (s : List Char) :
    s = s.takeWhile isPySpace ++ pyStrip s ++
        ((s.dropWhile isPySpace).reverse.takeWhile isPySpace).reverse := by
  unfold pyStrip
  conv_lhs => rw [← List.takeWhile_append_dropWhile (p := isPySpace) (l := s)]
  rw [List.append_assoc]
  congr 1
  conv_lhs =>
    rw [← List.reverse_reverse (s.dropWhile isPySpace),
      ← List.takeWhile_append_dropWhile (p := isPySpace)
        (l := (s.dropWhile isPySpace).reverse)]
  rw [List.reverse_append]

lemma pyStrip_infix (s : List Char) : ∃ u v, s = u ++ pyStrip s ++ v :=
  ⟨_, _, pyStrip_eq_parts s⟩

lemma pyStrip_length_le (s : List Char) : (pyStrip s).length ≤ s.length := by
  have h := congrArg List.length (pyStrip_eq_parts s)
  simp only [List.length_append] at h
  omega

lemma pyStrip_idem (s : List Char) : pyStrip (pyStrip s) = pyStrip s := by
  rcases dropWhile_cases isPySpace s with hd | ⟨a0, t0, hd, ha0⟩
  · unfold pyStrip
    rw [hd]
    rfl
  · rcases dropWhile_cases isPySpace (s.dropWhile isPySpace).reverse with
      he | ⟨a, t, he, ha⟩
    · unfold pyStrip
      rw [he]
      rfl
    · have hstrip : pyStrip s =
          ((s.dropWhile isPySpace).reverse.dropWhile isPySpace).reverse := rfl
      -- the last element of the inner dropWhile result is the head of
      -- `s.dropWhile isPySpace`, hence not a space
      have hsplit : ((s.dropWhile isPySpace).reverse.dropWhile isPySpace).reverse ++
          ((s.dropWhile isPySpace).reverse.takeWhile isPySpace).reverse
            = a0 :: t0 := by
        rw [← List.reverse_append, List.takeWhile_append_dropWhile,
          List.reverse_reverse, hd]
      have hne : ((s.dropWhile isPySpace).reverse.dropWhile isPySpace).reverse ≠ [] := by
        rw [he]; simp
      obtain ⟨b, u, hbu⟩ :
          ∃ b u, ((s.dropWhile isPySpace).reverse.dropWhile isPySpace).reverse
            = b :: u := by
        cases hx : ((s.dropWhile isPySpace).reverse.dropWhile isPySpace).reverse with
        | nil => exact absurd hx hne
        | cons b u => exact ⟨b, u, rfl⟩
      have hb : b = a0 := by
        rw [hbu] at hsplit
        simp only [List.cons_append, List.cons.injEq] at hsplit
        exact hsplit.1
      -- now strip the (already stripped) string again
      rw [hstrip, hbu]
      unfold pyStrip
      have h1 : (b :: u).dropWhile isPySpace = b :: u := by
        simp [List.dropWhile_cons, hb, ha0]
      rw [h1]
      have h2 : (b :: u).reverse.dropWhile isPySpace = (b :: u).reverse := by
        rw [← hbu, List.reverse_reverse, he]
        simp [List.dropWhile_cons, ha]
      rw [h2, List.reverse_reverse]

lemma pyStrip_isEmpty_false_iff (s : List Char) :
    (pyStrip s).isEmpty = false ↔ pyStrip s ≠ [] := by
  cases h : pyStrip s <;> simp [h]

lemma pyIdx_le (n : Nat) (i : Int) : pyIdx n i ≤ n := by
  unfold pyIdx
  split_ifs <;> omega

lemma pyIdx_spec (n : Nat) (i : Int) :
    (i < 0 ∧ (n : Int) + i ≤ 0 ∧ (pyIdx n i : Int) = 0) ∨
    (i < 0 ∧ 0 ≤ (n : Int) + i ∧ (pyIdx n i : Int) = (n : Int) + i) ∨
    (0 ≤ i ∧ i ≤ (n : Int) ∧ (pyIdx n i : Int) = i) ∨
    (0 ≤ i ∧ (n : Int) ≤ i ∧ (pyIdx n i : Int) = (n : Int)) := by
  unfold pyIdx
  split_ifs <;> omega

lemma pySlice_length (s : List Char) (a b : Int) :
    (pySlice s a b).length = pyIdx s.length b - pyIdx s.length a := by
  have h := pyIdx_le s.length b
  unfold pySlice
  simp only [List.length_drop, List.length_take]
  omega

lemma pySlice_infix (s : List Char) (a b : Int) :
    ∃ u v, s = u ++ pySlice s a b ++ v := by
  refine ⟨(s.take (pyIdx s.length b)).take (pyIdx s.length a),
    s.drop (pyIdx s.length b), ?_⟩
  unfold pySlice
  rw [List.take_append_drop, List.take_append_drop]

lemma pyStrip_pySlice_infix (s : List Char) (a b : Int) :
    ∃ u v, s = u ++ pyStrip (pySlice s a b) ++ v := by
  obtain ⟨u1, v1, h1⟩ := pySlice_infix s a b
  obtain ⟨u2, v2, h2⟩ := pyStrip_infix (pySlice s a b)
  refine ⟨u1 ++ u2, v2 ++ v1, ?_⟩
  calc s = u1 ++ pySlice s a b ++ v1 := h1
    _ = u1 ++ (u2 ++ pyStrip (pySlice s a b) ++ v2) ++ v1 := by rw [← h2]
    _ = u1 ++ u2 ++ pyStrip (pySlice s a b) ++ (v2 ++ v1) := by
        simp [List.append_assoc]

lemma foldl_max_cases (l : List Nat) (init : Int) :
    l.foldl (fun (acc : Int) (p : Nat) => max acc (p : Int)) init = init ∨
    ∃ p ∈ l, l.foldl (fun (acc : Int) (p : Nat) => max acc (p : Int)) init
      = (p : Int) := by
  induction l generalizing init with
  | nil => exact Or.inl rfl
  | cons a t ih =>
    simp only [List.foldl_cons]
    rcases ih (max init (a : Int)) with h | ⟨p, hp, h⟩
    · rcases le_total init (a : Int) with h1 | h1
      · right
        exact ⟨a, by simp, by rw [h, max_eq_right h1]⟩
      · left
        rw [h, max_eq_left h1]
    · right
      exact ⟨p, by simp [hp], h⟩

lemma pyRfind_spec (s sub : List Char) (a b : Int) :
    pyRfind s sub a b = -1 ∨
    (0 ≤ pyRfind s sub a b ∧
     pyRfind s sub a b + (sub.length : Int) ≤ (pyIdx s.length b : Int)) := by
  unfold pyRfind
  rcases foldl_max_cases _ (-1) with h | ⟨p, hp, h⟩
  · exact Or.inl h
  · right
    rw [h]
    simp only [List.mem_filter, List.mem_range, Bool.and_eq_true,
      decide_eq_true_eq] at hp
    obtain ⟨-, ⟨-, h2⟩, -⟩ := hp
    omega

lemma computeEnd_spec (text : List Char) (cs start : Int) :
    computeEnd text cs start = start + cs ∨
    (start + cs < (text.length : Int) ∧
     start + Int.fdiv cs 2 < computeEnd text cs start ∧
     (computeEnd text cs start = -1 ∨ computeEnd text cs start = 0 ∨
      (0 ≤ computeEnd text cs start ∧
       computeEnd text cs start + 1 ≤ (pyIdx text.length (start + cs) : Int)))) := by
  have hpar : paraBreak.length = 2 := rfl
  have hsent : sentBreak.length = 2 := rfl
  unfold computeEnd
  split_ifs with h1 h2 h3
  · right
    refine ⟨h1, h2, ?_⟩
    rcases pyRfind_spec text paraBreak start (start + cs) with h | ⟨h4, h5⟩
    · exact Or.inl h
    · right; right
      exact ⟨h4, by omega⟩
  · right
    refine ⟨h1, by omega, ?_⟩
    rcases pyRfind_spec text sentBreak start (start + cs) with h | ⟨h4, h5⟩
    · right; left; omega
    · right; right
      exact ⟨by omega, by omega⟩
  · exact Or.inl rfl
  · exact Or.inl rfl

/-! ### Behaviour of the chunking loop -/

/-- With `overlap ≥ chunk_size` (and text longer than one window) the loop
never makes enough progress to exit: every reachable `start` stays at most
`len - chunk_size - 1`, so the loop runs forever (returns `none` for every
fuel). -/
lemma chunkLoop_none {text : List Char} {cs ov : Int}
    (hc : 0 ≤ cs) (ho : cs ≤ ov) (hl : cs < (text.length : Int)) :
    ∀ fuel start acc, start ≤ (text.length : Int) - cs - 1 →
      chunkLoop text cs ov fuel start acc = none := by
  intro fuel
  induction fuel with
  | zero => intro start acc _; rfl
  | succ f ih =>
    intro start acc h
    have hguard : start < (text.length : Int) := by omega
    simp only [chunkLoop]
    rw [if_pos hguard]
    apply ih
    have hcases := computeEnd_spec text cs start
    have hidx := pyIdx_spec text.length (start + cs)
    split_ifs with hlt
    · rcases hcases with hA | ⟨hB1, hB2, hB3⟩
      · omega
      · rcases hB3 with he | he | ⟨he1, he2⟩ <;>
          rcases hidx with h4 | h4 | h4 | h4 <;> omega
    · rcases hcases with hA | ⟨hB1, hB2, hB3⟩
      · omega
      · rcases hB3 with he | he | ⟨he1, he2⟩ <;>
          rcases hidx with h4 | h4 | h4 | h4 <;> omega

/-- With `0 ≤ overlap ≤ chunk_size // 2 < chunk_size` every iteration
advances `start` by at least one, so fuel `len(text) + 1` suffices. -/
lemma chunkLoop_isSome {text : List Char} {cs ov : Int}
    (hc : 0 < cs) (ho : 0 ≤ ov) (hov : ov ≤ Int.fdiv cs 2) :
    ∀ fuel start acc, 0 ≤ start →
      ((text.length : Int) - start).toNat < fuel →
      (chunkLoop text cs ov fuel start acc).isSome = true := by
  have hfd : Int.fdiv cs 2 = cs / 2 := Int.fdiv_eq_ediv cs (by norm_num)
  intro fuel
  induction fuel with
  | zero => intro start acc h0 hf; omega
  | succ f ih =>
    intro start acc h0 hf
    by_cases hguard : start < (text.length : Int)
    · simp only [chunkLoop]
      rw [if_pos hguard]
      have hcases := computeEnd_spec text cs start
      have hidx := pyIdx_spec text.length (start + cs)
      refine ih _ _ ?_ ?_
      · split_ifs with hlt
        · rcases hcases with hA | ⟨hB1, hB2, hB3⟩ <;> omega
        · rcases hcases with hA | ⟨hB1, hB2, hB3⟩ <;> omega
      · split_ifs with hlt
        · rcases hcases with hA | ⟨hB1, hB2, hB3⟩ <;> omega
        · rcases hcases with hA | ⟨hB1, hB2, hB3⟩ <;> omega
    · simp only [chunkLoop]
      rw [if_neg hguard]
      rfl

/-- One well-formedness step for the loop: starting from a reachable state
(`start ≥ 0` when the overlap is non-positive, `start ≥ -1 - overlap`
otherwise) with `overlap ≤ chunk_size`, every chunk the loop ever returns is
non-empty, stripped, at most `chunk_size` long, and a contiguous piece of
the text. -/
lemma chunkLoop_good {text : List Char} {cs ov : Int}
    (hc : 0 ≤ cs) (hoc : ov ≤ cs) (hlen : cs < (text.length : Int)) :
    ∀ fuel start acc out,
      (ov ≤ 0 → 0 ≤ start) → (0 < ov → -1 - ov ≤ start) →
      (∀ x ∈ acc, x ≠ [] ∧ pyStrip x = x ∧ (x.length : Int) ≤ cs ∧
        ∃ u v, text = u ++ x ++ v) →
      chunkLoop text cs ov fuel start acc = some out →
      ∀ x ∈ out, x ≠ [] ∧ pyStrip x = x ∧ (x.length : Int) ≤ cs ∧
        ∃ u v, text = u ++ x ++ v := by
  have hfd : Int.fdiv cs 2 = cs / 2 := Int.fdiv_eq_ediv cs (by norm_num)
  intro fuel
  induction fuel with
  | zero =>
    intro start acc out _ _ _ hrun
    exact absurd hrun (by simp [chunkLoop])
  | succ f ih =>
    intro start acc out h1 h2 hacc hrun
    by_cases hguard : start < (text.length : Int)
    · simp only [chunkLoop] at hrun
      rw [if_pos hguard] at hrun
      have hcases := computeEnd_spec text cs start
      have hidx := pyIdx_spec text.length (start + cs)
      refine ih _ _ _ ?_ ?_ ?_ hrun
      · -- overlap ≤ 0 regime keeps start non-negative
        intro hov0
        have hs0 := h1 hov0
        split_ifs with hlt
        · rcases hcases with hA | ⟨hB1, hB2, hB3⟩ <;> omega
        · rcases hcases with hA | ⟨hB1, hB2, hB3⟩ <;> omega
      · -- positive overlap regime keeps start ≥ -1 - overlap
        intro hov0
        have hs0 := h2 hov0
        split_ifs with hlt
        · rcases hcases with hA | ⟨hB1, hB2, hB3⟩
          · omega
          · rcases hB3 with he | he | ⟨he1, he2⟩ <;> omega
        · omega
      · -- the accumulated chunks stay well-formed
        by_cases hemp :
          (pyStrip (pySlice text start (computeEnd text cs start))).isEmpty = true
        · rw [if_pos hemp]
          exact hacc
        · rw [if_neg hemp]
          intro x hx
          rcases List.mem_append.mp hx with hx | hx
          · exact hacc x hx
          · simp only [List.mem_singleton] at hx
            subst hx
            refine ⟨?_, pyStrip_idem _, ?_, pyStrip_pySlice_infix text start _⟩
            · simpa [List.isEmpty_iff] using hemp
            · have hl1 :=
                pyStrip_length_le (pySlice text start (computeEnd text cs start))
              have hl2 := pySlice_length text start (computeEnd text cs start)
              have hidxs := pyIdx_spec text.length start
              have hidxe := pyIdx_spec text.length (computeEnd text cs start)
              rcases le_or_lt ov 0 with hov0 | hov0
              · have hs0 := h1 hov0
                rcases hcases with hA | ⟨hB1, hB2, hB3⟩
                · rcases hidxs with h5 | h5 | h5 | h5 <;>
                    rcases hidxe with h6 | h6 | h6 | h6 <;> omega
                · rcases hB3 with he | he | ⟨he1, he2⟩ <;>
                    rcases hidx with h4 | h4 | h4 | h4 <;>
                    rcases hidxs with h5 | h5 | h5 | h5 <;>
                    rcases hidxe with h6 | h6 | h6 | h6 <;> omega
              · have hs0 := h2 hov0
                rcases hcases with hA | ⟨hB1, hB2, hB3⟩
                · rcases hidxs with h5 | h5 | h5 | h5 <;>
                    rcases hidxe with h6 | h6 | h6 | h6 <;> omega
                · rcases hB3 with he | he | ⟨he1, he2⟩ <;>
                    rcases hidx with h4 | h4 | h4 | h4 <;>
                    rcases hidxs with h5 | h5 | h5 | h5 <;>
                    rcases hidxe with h6 | h6 | h6 | h6 <;> omega
    · simp only [chunkLoop] at hrun
      rw [if_neg hguard] at hrun
      have h := Option.some.inj hrun
      subst h
      exact hacc

/-- Fuel `text.length + 1` always suffices at the default arguments
`chunk_size=500, overlap=50` used by `load_documents`. -/
lemma chunkText_default_isSome (text : List Char) :
    (chunkText (text.length + 1) text 500 50).isSome = true := by
  unfold chunkText
  by_cases hle : (text.length : Int) ≤ 500
  · rw [if_pos hle]
    rfl
  · rw [if_neg hle]
    exact chunkLoop_isSome (by norm_num) (by norm_num) (by decide) _ 0 []
      le_rfl (by omega)

lemma chunkTextD_eq (text : List Char) :
    chunkText (text.length + 1) text 500 50 = some (chunkTextD text) := by
  have h := chunkText_default_isSome text
  unfold chunkTextD
  cases hx : chunkText (text.length + 1) text 500 50 with
  | none => rw [hx] at h; exact absurd h (by simp)
  | some v => rfl

/-! ### Claims about the chunker -/

/-- C2: the spec requires `chunk_text` to guard against non-positive window
progress (`overlap ≥ chunk_size`) and fail fast, and asserts it terminates
on every input.  The code has no such guard: whenever the text is longer
than one window and `overlap ≥ chunk_size`, the loop never terminates — for
every amount of fuel the embedded loop is still running (`none`). -/
theorem chunk_text_diverges_when_overlap_ge_size {text : List Char}
    {cs ov : Int} (hc : 0 ≤ cs) (ho : cs ≤ ov)
    (hl : cs < (text.length : Int)) :
    ∀ fuel, chunkText fuel text cs ov = none := by
  intro fuel
  unfold chunkText
  rw [if_neg (by omega)]
  exact chunkLoop_none hc ho hl fuel 0 [] (by omega)

theorem chunk_text_diverges_when_overlap_ge_size_witness :
    chunkText 6 "abcdefghijk".toList 10 10 = none :=
  chunk_text_diverges_when_overlap_ge_size (by decide) (by decide) (by decide) 6

/-- C3 (amended): the source guards the single-chunk case on the raw
(untrimmed) length, `len(text) <= chunk_size`: for every such text it
returns exactly the trimmed text as a single chunk, or no chunks when the
trimmed text is empty. -/
theorem chunk_text_short_input {fuel : Nat} {text : List Char} {cs ov : Int}
    (h : (text.length : Int) ≤ cs) :
    chunkText fuel text cs ov =
      some (if (pyStrip text).isEmpty then [] else [pyStrip text]) := by
  unfold chunkText
  rw [if_pos h]

theorem chunk_text_short_input_witness :
    chunkText 0 "  leave policy  ".toList 500 50 =
      some [pyStrip "  leave policy  ".toList] := by
  have h := @chunk_text_short_input 0 "  leave policy  ".toList 500 50
    (by decide)
  rw [h]
  decide

/-- C3 counterexample: the claim keys the single-chunk case on the
*trimmed* length.  For `"       abcdefghij"` (7 spaces then 10 letters) with
`chunk_size=10, overlap=3` the trimmed length is 10 ≤ 10, yet the code takes
the loop path (raw length 17 > 10) and returns two chunks, not the single
trimmed text. -/
theorem chunk_text_short_input_cex :
    ((pyStrip "       abcdefghij".toList).length : Int) ≤ 10 ∧
    (pyStrip "       abcdefghij".toList).isEmpty = false ∧
    chunkText 5 "       abcdefghij".toList 10 3 =
      some ["abc".toList, "abcdefghij".toList] ∧
    chunkText 5 "       abcdefghij".toList 10 3 ≠
      some [pyStrip "       abcdefghij".toList] := by
  refine ⟨by decide, by decide, by decide, by decide⟩

/-- C8: on the 15-character break-free string `"abcdefghijklmno"` with
`chunk_size=10, overlap=3`, `chunk_text` produces the windows starting at 0
and at 7 (advance `= 10 - 3 = 7`), which cover the whole string and share
exactly 3 characters. -/
theorem chunk_text_scenario_15 :
    chunkText 5 "abcdefghijklmno".toList 10 3 =
      some ["abcdefghijklmno".toList.take 10, "abcdefghijklmno".toList.drop 7] ∧
    ("abcdefghijklmno".toList.take 10).drop 7 =
      ("abcdefghijklmno".toList.drop 7).take 3 ∧
    (("abcdefghijklmno".toList.take 10).drop 7).length = 3 ∧
    ("abcdefghijklmno".toList.take 10).take 7 ++ "abcdefghijklmno".toList.drop 7 =
      "abcdefghijklmno".toList := by
  refine ⟨by decide, by decide, by decide, by decide⟩

/-- C9 (amended): for non-negative `chunk_size`, whenever `chunk_text`
returns, every returned chunk is non-empty, carries no leading or trailing
whitespace, is at most `chunk_size` long, and is a (trimmed) contiguous
substring of the input. -/
theorem chunk_text_chunks_wf {fuel : Nat} {text : List Char} {cs ov : Int}
    {chunks : List (List Char)} (hc : 0 ≤ cs)
    (hrun : chunkText fuel text cs ov = some chunks) :
    ∀ x ∈ chunks, x ≠ [] ∧ pyStrip x = x ∧ (x.length : Int) ≤ cs ∧
      ∃ u v, text = u ++ x ++ v := by
  unfold chunkText at hrun
  by_cases hle : (text.length : Int) ≤ cs
  · rw [if_pos hle] at hrun
    have hch := Option.some.inj hrun
    by_cases hemp : (pyStrip text).isEmpty = true
    · rw [if_pos hemp] at hch
      subst hch
      intro x hx
      exact absurd hx (by simp)
    · rw [if_neg hemp] at hch
      subst hch
      intro x hx
      simp only [List.mem_singleton] at hx
      subst hx
      have hl1 := pyStrip_length_le text
      exact ⟨by simpa [List.isEmpty_iff] using hemp, pyStrip_idem text,
        by omega, pyStrip_infix text⟩
  · rw [if_neg hle] at hrun
    rcases le_or_lt ov cs with hoc | hoc
    · exact chunkLoop_good hc hoc (by omega) fuel 0 [] chunks
        (fun _ => le_rfl) (fun h => by omega) (by simp) hrun
    · rw [chunkLoop_none hc (le_of_lt hoc) (by omega) fuel 0 [] (by omega)]
        at hrun
      exact absurd hrun (by simp)

theorem chunk_text_chunks_wf_witness :
    (['h', 'i'] : List Char) ≠ [] ∧ pyStrip ['h', 'i'] = ['h', 'i'] ∧
    ((['h', 'i'] : List Char).length : Int) ≤ 3 ∧
    ∃ u v, " hi".toList = u ++ ['h', 'i'] ++ v :=
  @chunk_text_chunks_wf 1 " hi".toList 3 1 [['h', 'i']]
    (by decide) (by decide) ['h', 'i'] (by decide)

/-- C9 counterexample: the claim as stated quantifies over *every* input on
which `chunk_text` returns.  With a negative `chunk_size` Python's negative
index handling lets a boundary break through: on `"ab\n\ncd"` with
`chunk_size=-1, overlap=-5` the call returns the chunk `"ab"`, whose length
2 is not at most `chunk_size = -1`. -/
theorem chunk_text_chunks_wf_cex :
    chunkText 3 "ab\n\ncd".toList (-1) (-5) = some ["ab".toList] ∧
    ¬ (("ab".toList.length : Int) ≤ -1) := by
  refine ⟨by decide, by decide⟩

/-! ### Loading documents (src/rag/embedder.py, `load_documents`) -/

/-- Decimal representation of a natural number, as Python's `str(i)`
renders the chunk index inside an f-string. -/
def natRepr (n : Nat) : List Char :=
  if n = 0 then ['0'] else (Nat.digits 10 n).reverse.map Nat.digitChar

/-- The chunk identifier built at src/rag/embedder.py line 121:
`f"{file_path.stem}_{i}"`. -/
def mkChunkId (stem : List Char) (i : Nat) : List Char :=
  stem ++ '_' :: natRepr i

/-- Whether `Path(data_dir).glob("*.md")` matches a file name: the `*`
matches any (possibly empty) character sequence, so the test is simply
that the name ends in `.md`.  Dot-prefixed names are matched too —
`pathlib.Path.glob` does not hide dotfiles — so `".md"` and
`".hidden.md"` are both loaded. -/
def isMdFile (name : List Char) : Bool :=
  decide (3 ≤ name.length) &&
  decide (name.drop (name.length - 3) = ['.', 'm', 'd'])

/-- `Path(name).stem` for a glob-matched `*.md` name.  pathlib recognises
a suffix only when the final dot sits at a positive index before the last
character, so the bare name `".md"` has no suffix and is its own stem;
every longer match ends in the suffix `.md`, which is removed. -/
def mdStem (name : List Char) : List Char :=
  if name.length = 3 then name else name.take (name.length - 3)

-- pathlib facts reflected by the model (checked against CPython 3.11):
-- glob("*.md") matches dotfiles, and Path(".md").stem is ".md".
example : isMdFile ".md".toList = true := by decide
example : isMdFile ".hidden.md".toList = true := by decide
example : isMdFile "notes.txt".toList = false := by decide
example : mdStem ".md".toList = ".md".toList := by decide
example : mdStem ".hidden.md".toList = ".hidden".toList := by decide
example : mdStem "..md".toList = ".".toList := by decide
example : mdStem "a.b.md".toList = "a.b".toList := by decide

/-- One entry of the list returned by `load_documents`
(src/rag/embedder.py lines 117-122). -/
structure RawDoc where
  content : List Char
  source : List Char
  chunk_id : List Char
deriving DecidableEq

/-- The per-file part of `load_documents`: chunk the file content with the
default chunk parameters and tag each chunk with the file name and
`"<stem>_<index>"`. -/
def fileDocs (name content : List Char) : List RawDoc :=
  (chunkTextD content).enum.map (fun ic =>
    { content := ic.2, source := name,
      chunk_id := mkChunkId (mdStem name) ic.1 })

/-- The retriever error taxonomy: `load_documents` raises
`FileNotFoundError` when the data directory is missing (the spec's
`DataDirectoryNotFound`), and `index_documents` propagates it. -/
inductive RagError where
  | dataDirectoryNotFound
deriving DecidableEq

/-- `load_documents(data_dir)` (src/rag/embedder.py lines 94-124).  A
directory is `none` when absent, otherwise the list of
`(file name, file content)` pairs it holds, in glob order. -/
def load_documents (dir : Option (List (List Char × List Char))) :
    Except RagError (List RawDoc) :=
  match dir with
  | none => Except.error RagError.dataDirectoryNotFound
  | some files =>
    Except.ok ((files.filter (fun f => isMdFile f.1)).flatMap
      (fun f => fileDocs f.1 f.2))

/-! ### The retriever (src/rag/retriever.py) -/

/-- The metadata stored with each indexed chunk
(src/rag/retriever.py line 83). -/
structure ChunkMeta where
  source : List Char
  chunk_id : List Char
deriving DecidableEq

/-- One entry of the ChromaDB collection: id, embedding vector, document
text and metadata.  The embedding type is abstract — the embedder is an
external model. -/
structure EntryRec (Emb : Type) where
  id : List Char
  emb : Emb
  text : List Char
  meta : ChunkMeta
deriving DecidableEq

/-- The mutable state of a `Retriever`: the collection contents and the
query-embedding cache `_query_cache`. -/
structure RetrieverState (Emb : Type) where
  entries : List (EntryRec Emb)
  queryCache : List (List Char × Emb)
deriving DecidableEq

/-- `Retriever.get_document_count` (src/rag/retriever.py lines 146-148). -/
def getDocumentCount {Emb : Type} (st : RetrieverState Emb) : Nat :=
  st.entries.length

/-- `Retriever.clear_cache` (src/rag/retriever.py lines 150-152). -/
def clearCache {Emb : Type} (st : RetrieverState Emb) : RetrieverState Emb :=
  { st with queryCache := [] }

/-- The `force_reindex` clearing step of `index_documents`
(src/rag/retriever.py lines 66-71): delete every existing entry. -/
def clearedState {Emb : Type} (st : RetrieverState Emb) (force : Bool) :
    RetrieverState Emb :=
  if force = true ∧ 0 < st.entries.length then { st with entries := [] }
  else st

/-- `Retriever.index_documents` (src/rag/retriever.py lines 50-98), with
the embedder as a function `em`.  The result is paired with the post-call
state, so an exception keeps the mutations made before it (the
`force_reindex` delete happens before `load_documents` can raise). -/
def indexDocuments {Emb : Type} (em : List Char → Emb)
    (st : RetrieverState Emb) (dir : Option (List (List Char × List Char)))
    (force : Bool) : Except RagError Nat × RetrieverState Emb :=
  if 0 < st.entries.length ∧ force = false then
    (Except.ok st.entries.length, st)
  else
    match load_documents dir with
    | Except.error e => (Except.error e, clearedState st force)
    | Except.ok docs =>
      if docs.isEmpty then (Except.ok 0, clearedState st force)
      else
        (Except.ok docs.length,
         { clearedState st force with
            entries := (clearedState st force).entries ++ docs.map (fun d =>
              { id := d.chunk_id, emb := em d.content, text := d.content,
                meta := { source := d.source, chunk_id := d.chunk_id } }) })

/-- A formatted search result (src/rag/retriever.py lines 136-142).
Distances are floats in the source; no claim depends on float rounding, so
they are modelled as rationals. -/
structure SearchResult where
  content : List Char
  source : List Char
  chunk_id : List Char
  distance : Rat
  relevance_score : Rat
deriving DecidableEq

/-- `Retriever.search` (src/rag/retriever.py lines 100-144).  The vector
store's nearest-neighbour lookup is the external capability `qfn` (the
spec's non-goal); the embedder is `em`.  Returns the formatted results and
the post-call state: on a cache miss with `use_cache` the query's embedding
is stored in `_query_cache`. -/
def search {Emb : Type} (em : List Char → Emb)
    (qfn : List (EntryRec Emb) → Emb → Nat → List (List Char × ChunkMeta × Rat))
    (st : RetrieverState Emb) (query : List Char) (top_k : Nat)
    (use_cache : Bool) : List SearchResult × RetrieverState Emb :=
  match (if use_cache then List.lookup query st.queryCache else none) with
  | some qe =>
    ((qfn st.entries qe top_k).map (fun r =>
      { content := r.1, source := r.2.1.source, chunk_id := r.2.1.chunk_id,
        distance := r.2.2, relevance_score := 1 - r.2.2 }),
     st)
  | none =>
    ((qfn st.entries (em query) top_k).map (fun r =>
      { content := r.1, source := r.2.1.source, chunk_id := r.2.1.chunk_id,
        distance := r.2.2, relevance_score := 1 - r.2.2 }),
     if use_cache then
       { st with queryCache := (query, em query) :: st.queryCache }
     else st)

/-! ### The bot orchestration layer (src/bot.py) -/

/-- One stored conversation turn: the dict appended to `message_history`. -/
structure Turn where
  query : List Char
  answer : List Char
  sources : List (List Char)
deriving DecidableEq

/-- Python `l[-n:]` for a non-negative count `n`: the last `n` elements —
except that `l[-0:]` is the whole list. -/
def pyLastN {α : Type} (n : Nat) (l : List α) : List α :=
  if n = 0 then l else l.drop (l.length - n)

/-- The history update of `ask` (src/bot.py lines 141-149): append the new
turn, then cut back to the last `maxHistory` entries when the list got
longer than that. -/
def appendTrim (maxHistory : Nat) (hist : List Turn) (t : Turn) : List Turn :=
  if maxHistory < (hist ++ [t]).length then pyLastN maxHistory (hist ++ [t])
  else hist ++ [t]

/-- Outcome of the external LLM `generate` / `describe_image` call. -/
inductive GenOutcome where
  | ok (answer : List Char)
  | failed
deriving DecidableEq

/-- What the handler sends back to the chat. -/
inductive Reply where
  | needQuery
  | noResults
  | answered (answer : List Char)
  | apology
deriving DecidableEq

/-- The bot state the handlers touch: the retriever state plus the per-user
message history (`message_history` is a `defaultdict(list)`). -/
structure BotState (Emb : Type) where
  retr : RetrieverState Emb
  mhist : Nat → List Turn

/-- `" ".join(args)`. -/
def joinSpaces (args : List (List Char)) : List Char :=
  List.intercalate [' '] args

/-- The `/ask` handler (src/bot.py lines 88-163): search (which may grow
the query cache), bail out on empty results, call the generation backend,
and only on success append to and trim the user's history.  An exception
from the backend is caught and answered with the apology message, after
the search already updated the cache. -/
def askHandler {Emb : Type} (em : List Char → Emb)
    (qfn : List (EntryRec Emb) → Emb → Nat → List (List Char × ChunkMeta × Rat))
    (gen : GenOutcome) (st : BotState Emb) (uid : Nat)
    (args : List (List Char)) (top_k maxHistory : Nat) :
    BotState Emb × Reply :=
  if args.isEmpty then (st, Reply.needQuery)
  else if (search em qfn st.retr (joinSpaces args) top_k true).1.isEmpty then
    ({ st with retr := (search em qfn st.retr (joinSpaces args) top_k true).2 },
     Reply.noResults)
  else
    match gen with
    | GenOutcome.failed =>
      ({ st with retr := (search em qfn st.retr (joinSpaces args) top_k true).2 },
       Reply.apology)
    | GenOutcome.ok answer =>
      ({ retr := (search em qfn st.retr (joinSpaces args) top_k true).2,
         mhist := fun u => if u = uid then
             appendTrim maxHistory (st.mhist uid)
               { query := joinSpaces args, answer := answer,
                 sources := (search em qfn st.retr (joinSpaces args)
                   top_k true).1.map (fun r => r.source) }
           else st.mhist u },
       Reply.answered answer)

/-- The sentinel query text recorded for image turns
(src/bot.py line 232). -/
def imageSentinel : List Char := "[Image uploaded]".toList

/-- `process_image` (src/bot.py lines 212-243): on success the description
is appended to the user's history with the sentinel query — with no
trimming.  Failures are caught and answered with an apology. -/
def imageHandler {Emb : Type} (gen : GenOutcome) (st : BotState Emb)
    (uid : Nat) : BotState Emb × Reply :=
  match gen with
  | GenOutcome.failed => (st, Reply.apology)
  | GenOutcome.ok desc =>
    ({ st with mhist := fun u => if u = uid then
         st.mhist uid ++
           [Turn.mk imageSentinel desc ["image_description".toList]]
       else st.mhist u },
     Reply.answered desc)

/-! ### Claims about the retriever and the handlers -/

lemma search_entries_eq {Emb : Type} (em : List Char → Emb)
    (qfn : List (EntryRec Emb) → Emb → Nat → List (List Char × ChunkMeta × Rat))
    (st : RetrieverState Emb) (q : List Char) (top_k : Nat)
    (use_cache : Bool) :
    (search em qfn st q top_k use_cache).2.entries = st.entries := by
  unfold search
  cases (if use_cache then List.lookup q st.queryCache else none) with
  | some qe => rfl
  | none =>
    dsimp only
    split_ifs <;> rfl

lemma search_cache_effect {Emb : Type} (em : List Char → Emb)
    (qfn : List (EntryRec Emb) → Emb → Nat → List (List Char × ChunkMeta × Rat))
    (st : RetrieverState Emb) (q : List Char) (top_k : Nat) :
    (search em qfn st q top_k true).2.queryCache =
      if (List.lookup q st.queryCache).isSome then st.queryCache
      else (q, em q) :: st.queryCache := by
  unfold search
  cases hl : List.lookup q st.queryCache with
  | none => simp [hl]
  | some v => simp [hl]

/-- C10: neither `search` nor `clear_cache` touches the indexed entries:
`get_document_count` is unchanged by both, and `clear_cache` empties only
the query-embedding cache. -/
theorem search_clear_cache_frame {Emb : Type} (em : List Char → Emb)
    (qfn : List (EntryRec Emb) → Emb → Nat → List (List Char × ChunkMeta × Rat))
    (st : RetrieverState Emb) (q : List Char) (top_k : Nat)
    (use_cache : Bool) :
    getDocumentCount (search em qfn st q top_k use_cache).2 =
      getDocumentCount st ∧
    (search em qfn st q top_k use_cache).2.entries = st.entries ∧
    getDocumentCount (clearCache st) = getDocumentCount st ∧
    (clearCache st).entries = st.entries ∧
    (clearCache st).queryCache = [] := by
  refine ⟨?_, search_entries_eq em qfn st q top_k use_cache, rfl, rfl, rfl⟩
  unfold getDocumentCount
  rw [search_entries_eq]

/-- C4 (amended): when the generation backend fails, `ask` catches the
failure, replies with the apology, and leaves every user's history
unchanged; but the query-embedding cache is *not* untouched — the search
performed before the failure already inserted the query's embedding on a
cache miss (a repeat of the same query is still side-effect free, since
the same entry would be written again). -/
theorem ask_backend_failure {Emb : Type} (em : List Char → Emb)
    (qfn : List (EntryRec Emb) → Emb → Nat → List (List Char × ChunkMeta × Rat))
    (st : BotState Emb) (uid : Nat) (args : List (List Char))
    (top_k maxHistory : Nat) (hargs : args.isEmpty = false)
    (hres : (search em qfn st.retr (joinSpaces args) top_k true).1.isEmpty
      = false) :
    askHandler em qfn GenOutcome.failed st uid args top_k maxHistory =
      ({ st with retr := (search em qfn st.retr (joinSpaces args) top_k true).2 },
       Reply.apology) ∧
    (askHandler em qfn GenOutcome.failed st uid args top_k maxHistory).1.mhist
      = st.mhist ∧
    (search em qfn st.retr (joinSpaces args) top_k true).2.queryCache =
      (if (List.lookup (joinSpaces args) st.retr.queryCache).isSome then
        st.retr.queryCache
      else (joinSpaces args, em (joinSpaces args)) :: st.retr.queryCache) := by
  refine ⟨?_, ?_, search_cache_effect em qfn st.retr (joinSpaces args) top_k⟩
  · unfold askHandler
    rw [if_neg (by simp [hargs]), if_neg (by simp [hres])]
  · unfold askHandler
    rw [if_neg (by simp [hargs]), if_neg (by simp [hres])]

/-- C6: with a non-empty index and `force_reindex=False`, `index_documents`
is a no-op returning the current count; and whatever the first call did, a
second call without `force_reindex` leaves `get_document_count` unchanged. -/
theorem index_documents_idempotent {Emb : Type} (em : List Char → Emb)
    (st : RetrieverState Emb) (dir : Option (List (List Char × List Char))) :
    (st.entries ≠ [] →
      indexDocuments em st dir false = (Except.ok st.entries.length, st)) ∧
    getDocumentCount
        (indexDocuments em (indexDocuments em st dir false).2 dir false).2 =
      getDocumentCount (indexDocuments em st dir false).2 := by
  have hshort : ∀ s : RetrieverState Emb, s.entries ≠ [] →
      indexDocuments em s dir false = (Except.ok s.entries.length, s) := by
    intro s hs
    unfold indexDocuments
    rw [if_pos ⟨List.length_pos.mpr hs, rfl⟩]
  refine ⟨hshort st, ?_⟩
  by_cases hst : st.entries = []
  · cases hld : load_documents dir with
    | error e =>
      have hfst : indexDocuments em st dir false = (Except.error e, st) := by
        unfold indexDocuments
        rw [if_neg (by simp [hst]), hld]
        rfl
      rw [hfst]
      show getDocumentCount (indexDocuments em st dir false).2 =
        getDocumentCount st
      rw [hfst]
    | ok docs =>
      by_cases hde : docs.isEmpty = true
      · have hfst : indexDocuments em st dir false = (Except.ok 0, st) := by
          unfold indexDocuments
          rw [if_neg (by simp [hst]), hld]
          dsimp only
          rw [if_pos hde]
          rfl
        rw [hfst]
        show getDocumentCount (indexDocuments em st dir false).2 =
          getDocumentCount st
        rw [hfst]
      · have hne : (indexDocuments em st dir false).2.entries ≠ [] := by
          unfold indexDocuments
          rw [if_neg (by simp [hst]), hld]
          dsimp only
          rw [if_neg hde]
          dsimp only
          simp only [clearedState, hst]
          simp [List.isEmpty_iff] at hde
          simp [hde]
        rw [hshort _ hne]
  · have h1 := hshort st hst
    rw [h1]
    show getDocumentCount (indexDocuments em st dir false).2 =
      getDocumentCount st
    rw [h1]

def sampleEntry : EntryRec Nat :=
  { id := ['i'], emb := 0, text := ['t'],
    meta := { source := ['s'], chunk_id := ['i'] } }

theorem index_documents_idempotent_witness :
    indexDocuments (fun _ => (0 : Nat))
        { entries := [sampleEntry], queryCache := [] } none false =
      (Except.ok 1, { entries := [sampleEntry], queryCache := [] }) :=
  (index_documents_idempotent (fun _ => (0 : Nat)) _ none).1 (by decide)

/-- C7: with an empty index (or `force_reindex` set), `index_documents`
fails with `DataDirectoryNotFound` exactly when the data directory is
missing; an existing directory holding no documents yields `0` and no
error. -/
theorem index_documents_data_dir_error {Emb : Type} (em : List Char → Emb)
    (st : RetrieverState Emb) (dir : Option (List (List Char × List Char)))
    (force : Bool) (h : st.entries = [] ∨ force = true) :
    ((indexDocuments em st dir force).1 =
        Except.error RagError.dataDirectoryNotFound ↔ dir = none) ∧
    (∀ fs, dir = some fs → load_documents (some fs) = Except.ok [] →
      (indexDocuments em st dir force).1 = Except.ok 0) := by
  have hcond : ¬ (0 < st.entries.length ∧ force = false) := by
    rcases h with h | h <;> simp [h]
  constructor
  · unfold indexDocuments
    rw [if_neg hcond]
    cases dir with
    | none => simp [load_documents]
    | some fs =>
      rw [show load_documents (some fs) =
        Except.ok ((fs.filter (fun f => isMdFile f.1)).flatMap
          (fun f => fileDocs f.1 f.2)) from rfl]
      constructor
      · intro habs
        dsimp only at habs
        split_ifs at habs
      · intro habs
        simp at habs
  · intro fs hdir hld
    subst hdir
    unfold indexDocuments
    rw [if_neg hcond, hld]
    rfl

theorem index_documents_data_dir_error_witness :
    (indexDocuments (fun _ => (0 : Nat))
        { entries := [], queryCache := [] } none false).1 =
      Except.error RagError.dataDirectoryNotFound ∧
    (indexDocuments (fun _ => (0 : Nat))
        { entries := [], queryCache := [] } (some []) false).1 =
      Except.ok 0 :=
  ⟨(index_documents_data_dir_error (fun _ => (0 : Nat))
      { entries := [], queryCache := [] } none false (Or.inl rfl)).1.mpr rfl,
   (index_documents_data_dir_error (fun _ => (0 : Nat))
      { entries := [], queryCache := [] } (some []) false (Or.inl rfl)).2
     [] rfl rfl⟩

def cexEmbed : List Char → Nat := fun _ => 0

def cexQfn : List (EntryRec Nat) → Nat → Nat →
    List (List Char × ChunkMeta × Rat) :=
  fun _ _ _ => [(['r'], { source := ['s'], chunk_id := ['c'] }, 0)]

def cexBot : BotState Nat :=
  { retr := { entries := [], queryCache := [] }, mhist := fun _ => [] }

theorem ask_backend_failure_witness :
    askHandler cexEmbed cexQfn GenOutcome.failed cexBot 0 [['q']] 1 3 =
      ({ cexBot with retr := (search cexEmbed cexQfn cexBot.retr
          (joinSpaces [['q']]) 1 true).2 }, Reply.apology) :=
  (ask_backend_failure cexEmbed cexQfn cexBot 0 [['q']] 1 3 rfl (by decide)).1

/-- C4 counterexample: the claim says the query-embedding cache is left
unmodified on a backend failure.  On a fresh state it is not: the failed
`/ask` run leaves the query's embedding in the cache (inserted by the
search that preceded the failure). -/
theorem ask_backend_failure_cex :
    (askHandler cexEmbed cexQfn GenOutcome.failed cexBot 0 [['q']] 1 3).2 =
      Reply.apology ∧
    (askHandler cexEmbed cexQfn GenOutcome.failed cexBot 0
        [['q']] 1 3).1.retr.queryCache ≠ cexBot.retr.queryCache := by
  exact ⟨by decide, by decide⟩

/-! ### The history window (C1) -/

lemma appendTrim_of_le {N : Nat} {hist : List Turn} {t : Turn}
    (h : (hist ++ [t]).length ≤ N) : appendTrim N hist t = hist ++ [t] := by
  unfold appendTrim
  rw [if_neg (by omega)]

lemma appendTrim_length_le {N : Nat} (hN : 0 < N) (hist : List Turn)
    (t : Turn) (h : hist.length ≤ N) : (appendTrim N hist t).length ≤ N := by
  unfold appendTrim
  split_ifs with h1
  · unfold pyLastN
    rw [if_neg (by omega)]
    simp only [List.length_drop]
    omega
  · simp only [List.length_append, List.length_singleton] at h1 ⊢
    omega

lemma foldl_appendTrim_eq {N : Nat} :
    ∀ (ts hist : List Turn), hist.length + ts.length ≤ N →
      ts.foldl (appendTrim N) hist = hist ++ ts := by
  intro ts
  induction ts with
  | nil => intro hist _; simp
  | cons t ts ih =>
    intro hist h
    simp only [List.foldl_cons]
    rw [appendTrim_of_le (by
      simp only [List.length_cons] at h
      simp only [List.length_append, List.length_singleton]
      omega)]
    rw [ih (hist ++ [t]) (by
      simp only [List.length_cons] at h
      simp only [List.length_append, List.length_singleton]
      omega)]
    simp

/-- C1 (amended): the `/ask` handler trims after every append, so starting
from an empty history, `N+1` successive answered queries leave exactly the
last `N` turns — the oldest evicted, order preserved — and any history
within the bound stays within the bound.  (`process_image` appends without
trimming, so the bound does not survive image turns; see the
counterexample.) -/
theorem ask_history_window {N : Nat} {ts : List Turn} (hN : 0 < N)
    (hlen : ts.length = N + 1) :
    ts.foldl (appendTrim N) [] = ts.drop 1 ∧
    (ts.foldl (appendTrim N) []).length = N ∧
    (∀ hist t, hist.length ≤ N → (appendTrim N hist t).length ≤ N) := by
  have hmain : ts.foldl (appendTrim N) [] = ts.drop 1 := by
    rcases List.eq_nil_or_concat ts with rfl | ⟨ys, t, rfl⟩
    · simp at hlen
    · simp only [List.concat_eq_append] at hlen ⊢
      have hys : ys.length = N := by
        simp only [List.length_append, List.length_singleton] at hlen
        omega
      rw [List.foldl_append]
      rw [foldl_appendTrim_eq ys [] (by simp [hys])]
      simp only [List.nil_append, List.foldl_cons, List.foldl_nil]
      unfold appendTrim
      rw [if_pos (by
        simp only [List.length_append, List.length_singleton, hys]
        omega)]
      unfold pyLastN
      rw [if_neg (by omega)]
      rw [show (ys ++ [t]).length - N = 1 from by
        simp only [List.length_append, List.length_singleton, hys]
        omega]
  refine ⟨hmain, ?_, fun hist t h => appendTrim_length_le hN hist t h⟩
  rw [hmain, List.length_drop]
  omega

def turnA : Turn := { query := ['a'], answer := ['1'], sources := [] }

def turnB : Turn := { query := ['b'], answer := ['2'], sources := [] }

def turnC : Turn := { query := ['c'], answer := ['3'], sources := [] }

theorem ask_history_window_witness :
    [turnA, turnB, turnC].foldl (appendTrim 2) [] = [turnB, turnC] ∧
    ([turnA, turnB, turnC].foldl (appendTrim 2) []).length = 2 := by
  have h := @ask_history_window 2 [turnA, turnB, turnC]
    (by norm_num) (by simp)
  exact ⟨h.1, h.2.1⟩

def cexAsk (st : BotState Nat) (q : List Char) : BotState Nat :=
  (askHandler cexEmbed cexQfn (GenOutcome.ok ['a']) st 0 [q] 3 3).1

/-- C1 counterexample: the claim also bounds the history after every
processed image, but `process_image` appends without trimming.  With the
configured maximum 3, three answered queries followed by one processed
image leave 4 stored turns. -/
theorem ask_history_window_cex :
    ((imageHandler (GenOutcome.ok ['d'])
        (cexAsk (cexAsk (cexAsk cexBot ['x']) ['y']) ['z']) 0).1.mhist
        0).length = 4 ∧
    ¬ (((imageHandler (GenOutcome.ok ['d'])
        (cexAsk (cexAsk (cexAsk cexBot ['x']) ['y']) ['z']) 0).1.mhist
        0).length ≤ 3) := by
  exact ⟨by decide, by decide⟩

/-! ### Chunk identifiers (C5) -/

lemma digitChar_inj_lt10 : ∀ a, a < 10 → ∀ b, b < 10 →
    Nat.digitChar a = Nat.digitChar b → a = b := by decide

lemma map_digitChar_inj : ∀ (l1 l2 : List Nat), (∀ x ∈ l1, x < 10) →
    (∀ x ∈ l2, x < 10) → l1.map Nat.digitChar = l2.map Nat.digitChar →
    l1 = l2 := by
  intro l1
  induction l1 with
  | nil =>
    intro l2 _ _ h
    cases l2 with
    | nil => rfl
    | cons b u => simp at h
  | cons a t ih =>
    intro l2 h1 h2 h
    cases l2 with
    | nil => simp at h
    | cons b u =>
      simp only [List.map_cons, List.cons.injEq] at h
      have hab : a = b :=
        digitChar_inj_lt10 a (h1 a (by simp)) b (h2 b (by simp)) h.1
      rw [hab,
        ih u (fun x hx => h1 x (by simp [hx])) (fun x hx => h2 x (by simp [hx]))
          h.2]

lemma natRepr_ne_single_zero {b : Nat} (hb : b ≠ 0) :
    (Nat.digits 10 b).reverse.map Nat.digitChar ≠ ['0'] := by
  intro h
  cases hd : Nat.digits 10 b with
  | nil => exact hb (Nat.digits_eq_nil_iff_eq_zero.mp hd)
  | cons d ds =>
    cases hds : ds with
    | nil =>
      rw [hd, hds] at h
      simp only [List.reverse_cons, List.reverse_nil, List.nil_append,
        List.map_cons, List.map_nil, List.cons.injEq] at h
      have hdlt : d < 10 :=
        Nat.digits_lt_base (by norm_num) (by rw [hd]; simp)
      have hd0 : d = 0 :=
        digitChar_inj_lt10 d hdlt 0 (by norm_num) (by rw [h.1]; rfl)
      have hofd := Nat.ofDigits_digits 10 b
      rw [hd, hds, hd0] at hofd
      simp [Nat.ofDigits] at hofd
      exact hb hofd.symm
    | cons d2 ds2 =>
      rw [hd, hds] at h
      have hlen := congrArg List.length h
      simp at hlen

lemma natRepr_injective : Function.Injective natRepr := by
  intro a b h
  unfold natRepr at h
  by_cases ha : a = 0 <;> by_cases hb : b = 0
  · omega
  · rw [if_pos ha, if_neg hb] at h
    exact absurd h.symm (natRepr_ne_single_zero hb)
  · rw [if_neg ha, if_pos hb] at h
    exact absurd h (natRepr_ne_single_zero ha)
  · rw [if_neg ha, if_neg hb] at h
    have hdig : (Nat.digits 10 a).reverse = (Nat.digits 10 b).reverse :=
      map_digitChar_inj _ _
        (fun x hx => Nat.digits_lt_base (by norm_num) (List.mem_reverse.mp hx))
        (fun x hx => Nat.digits_lt_base (by norm_num) (List.mem_reverse.mp hx))
        h
    have hdig2 := List.reverse_injective hdig
    calc a = Nat.ofDigits 10 (Nat.digits 10 a) := (Nat.ofDigits_digits 10 a).symm
      _ = Nat.ofDigits 10 (Nat.digits 10 b) := by rw [hdig2]
      _ = b := Nat.ofDigits_digits 10 b

lemma mkChunkId_injective (stem : List Char) :
    Function.Injective (mkChunkId stem) := by
  intro i j h
  unfold mkChunkId at h
  have h2 := List.append_cancel_left h
  simp only [List.cons.injEq, true_and] at h2
  exact natRepr_injective h2

lemma fileDocs_ids (name content : List Char) :
    (fileDocs name content).map (fun d => d.chunk_id) =
      (List.range (chunkTextD content).length).map (mkChunkId (mdStem name)) := by
  unfold fileDocs
  rw [← List.enum_map_fst (chunkTextD content), List.map_map, List.map_map]
  rfl

/-- C5 (amended): `load_documents` loads exactly the `*.md` files of the
data directory (not every file); each such file contributes, per chunk, one
document entry whose `chunk_id` is `"<stem>_<index>"`, pairwise distinct
within the file, with the file name as its source, and all these entries
appear in the returned list.  Stability across runs is the determinism of
the pure function `fileDocs`. -/
theorem load_documents_chunk_ids {files : List (List Char × List Char)}
    {name content : List Char} (hmem : (name, content) ∈ files)
    (hmd : isMdFile name = true) :
    load_documents (some files) =
      Except.ok ((files.filter (fun f => isMdFile f.1)).flatMap
        (fun f => fileDocs f.1 f.2)) ∧
    (fileDocs name content).map (fun d => d.chunk_id) =
      (List.range (chunkTextD content).length).map (mkChunkId (mdStem name)) ∧
    ((fileDocs name content).map (fun d => d.chunk_id)).Nodup ∧
    (∀ d ∈ fileDocs name content, d.source = name) ∧
    (∀ d ∈ fileDocs name content,
      d ∈ (files.filter (fun f => isMdFile f.1)).flatMap
        (fun f => fileDocs f.1 f.2)) := by
  refine ⟨rfl, fileDocs_ids name content, ?_, ?_, ?_⟩
  · rw [fileDocs_ids name content]
    exact (List.nodup_range _).map (mkChunkId_injective (mdStem name))
  · intro d hd
    unfold fileDocs at hd
    simp only [List.mem_map] at hd
    obtain ⟨ic, _, rfl⟩ := hd
    rfl
  · intro d hd
    rw [List.mem_flatMap]
    exact ⟨(name, content), List.mem_filter.mpr ⟨hmem, hmd⟩, hd⟩

theorem load_documents_chunk_ids_witness :
    ((fileDocs "notes.md".toList "Hello world.".toList).map
      (fun d => d.chunk_id)).Nodup ∧
    (∀ d ∈ fileDocs "notes.md".toList "Hello world.".toList,
      d ∈ ([("notes.md".toList, "Hello world.".toList)].filter
          (fun f => isMdFile f.1)).flatMap (fun f => fileDocs f.1 f.2)) :=
  ⟨(@load_documents_chunk_ids [("notes.md".toList, "Hello world.".toList)]
      "notes.md".toList "Hello world.".toList
      (by decide) (by decide)).2.2.1,
   (@load_documents_chunk_ids [("notes.md".toList, "Hello world.".toList)]
      "notes.md".toList "Hello world.".toList
      (by decide) (by decide)).2.2.2.2⟩

/-- C5 counterexample: the claim says *every* file in the data directory
becomes one Document, but `load_documents` globs only `*.md`: a directory
holding just `notes.txt` (whose content would chunk to one chunk) yields no
documents at all. -/
theorem load_documents_chunk_ids_cex :
    load_documents (some [("notes.txt".toList, "Hello world.".toList)]) =
      Except.ok [] ∧
    chunkTextD "Hello world.".toList ≠ [] := by
  exact ⟨rfl, by decide⟩
